/-
Verification development for the snowpack `build` command
(src/commands/build.ts).

The command and its helpers are shallowly embedded below.  Strings are
modelled as `List Char` (JavaScript strings are sequences of UTF-16 code
units; every string occurring in the claims is plain ASCII, where the two
views agree).  External effects (process execution, plugin invocation,
directory copies, the bundler) are supplied by a `World` of oracles, and
the command is modelled as a pure function from a configuration and a
world to the sequence of observable actions it performs together with its
outcome.

Two helper modules of the repository are referenced by build.ts but are
not part of the provided sources (src/rewrite-imports.ts and
src/commands/src-file-extension-mapping.ts); they are modelled from the
specification where indicated.
-/
import Mathlib

set_option maxHeartbeats 1000000

namespace Snowpack

/-! ## String primitives (JavaScript string operations on `List Char`) -/

/-- JavaScript `String.prototype.startsWith`. -/
def strStartsWith : List Char → List Char → Bool
  | _, [] => true
  | [], _ :: _ => false
  | c :: cs, p :: ps => c = p && strStartsWith cs ps

/-- JavaScript `String.prototype.includes`. -/
def strIncludes : List Char → List Char → Bool
  | [], sub => strStartsWith [] sub
  | l@(_ :: cs), sub => strStartsWith l sub || strIncludes cs sub

/-- JavaScript `String.prototype.split` on a single-character separator:
splits at every occurrence, keeping empty segments. -/
def splitOnChar (c : Char) : List Char → List (List Char)
  | [] => [[]]
  | x :: xs =>
    if x = c then [] :: splitOnChar c xs
    else
      match splitOnChar c xs with
      | [] => [[x]]
      | a :: as => (x :: a) :: as

/-- Whitespace test for the regular expression `\s` (ASCII part; the
commands in the claims contain only spaces). -/
def isWs (ch : Char) : Bool :=
  ch = ' ' || ch = '\t' || ch = '\n' || ch = '\r'

/-- JavaScript `String.prototype.split(/\s+/)`: splits on maximal runs of
whitespace; a leading run yields a leading empty segment. -/
def splitWs : List Char → List (List Char)
  | [] => [[]]
  | x :: xs =>
    if isWs x then
      match xs with
      | [] => [] :: splitWs xs
      | y :: _ => if isWs y then splitWs xs else [] :: splitWs xs
    else
      match splitWs xs with
      | [] => [[x]]
      | a :: as => (x :: a) :: as

/-- JavaScript `String.prototype.replace` with a plain-string pattern:
replaces the first occurrence of `pat` (the empty pattern matches at the
start, as in JavaScript). -/
def replaceFirst (pat rep : List Char) : List Char → List Char
  | [] => if pat = [] then rep else []
  | l@(c :: cs) =>
    if strStartsWith l pat then rep ++ l.drop pat.length
    else c :: replaceFirst pat rep cs

/-- JavaScript `s.replace(new RegExp(ext ++ "$"), rep)` for the extension
strings that reach it (alphanumeric, hence free of regular-expression
metacharacters): replaces a trailing occurrence of `ext`, and leaves the
string unchanged when it does not end with `ext`. -/
def replaceExtAtEnd (s ext rep : List Char) : List Char :=
  if ext.isSuffixOf s then s.take (s.length - ext.length) ++ rep else s

/-- JavaScript object property lookup on an object literal, viewed as an
association list (first binding wins; JSON objects bind each key once). -/
def lookupStr : List (List Char × List Char) → List Char → Option (List Char)
  | [], _ => none
  | (a, b) :: rest, k => if a = k then some b else lookupStr rest k

/-- JavaScript object property assignment `o[k] = v`: overwrites an
existing binding in place, otherwise appends a new one. -/
def setKey : List (List Char × List Char) → List Char → List Char →
    List (List Char × List Char)
  | [], k, v => [(k, v)]
  | (a, b) :: rest, k, v =>
    if a = k then (k, v) :: rest else (a, b) :: setKey rest k v

/-! ## Node `path` model (posix) -/

/-- The part of a path after its last slash. -/
def basenamePart (p : List Char) : List Char :=
  (p.reverse.takeWhile (fun ch => ch ≠ '/')).reverse

/-- Node `path.extname`: the substring of the last path component from its
last dot to the end; empty when there is no dot, when the dot is the first
character of the component (hidden files), or for the component `..`.
(The trailing-slash normalisation of node is not modelled; no enumerated
file or import specifier in the claims ends in a slash.) -/
def extname (p : List Char) : List Char :=
  let b := basenamePart p
  if b = ['.', '.'] then []
  else
    let aft := b.reverse.takeWhile (fun ch => ch ≠ '.')
    if b.length ≤ aft.length + 1 then [] else '.' :: aft.reverse

/-- Node `path.join` of a directory and one further segment (separator
inserted, duplicate leading separators of the segment collapsed; no claim
depends on further normalisation). -/
def joinPath (a b : List Char) : List Char :=
  a ++ '/' :: b.dropWhile (fun ch => ch = '/')

/-- Node `path.resolve(cwd, p)` for the two shapes that occur: an absolute
`p` is returned, a relative one is joined onto `cwd`. -/
def resolvePath (cwd p : List Char) : List Char :=
  if strStartsWith p "/".data then p else joinPath cwd p

/-! ## Extension remapper -/

/-- Modelled from the spec: the Extension Remapper's static lookup table
(src/commands/src-file-extension-mapping.ts is not among the provided
sources).  "Source language/compiled extension → canonical browser
extension, e.g. a typed-language extension maps to a plain script
extension"; unknown extensions are not in the table. -/
def srcFileExtensionMapping (ext : List Char) : Option (List Char) :=
  if ext = "ts".data ∨ ext = "tsx".data ∨ ext = "jsx".data ∨
      ext = "vue".data ∨ ext = "svelte".data then
    some "js".data
  else none

/-! ## Events and the import rewriter -/

/-- Events observable on the message bus (plus redirected console output,
which after the redirection on lines 75-83 of build.ts is itself a
CONSOLE event on the bus). -/
inductive Event
  | WorkerUpdate (id : List Char) (state : List Char)
  | WorkerMsg (id : List Char) (level : List Char) (msg : List Char)
  | WorkerComplete (id : List Char) (error : Option (List Char))
  | WorkerReset (id : List Char)
  | MissingWebModule (specifier : List Char)
  | Console (level : List Char) (msg : List Char)
  deriving DecidableEq

def webModulesDir : List Char := "/web_modules/".data

def missingExtMsg (f spec : List Char) : List Char :=
  f ++ ": Import ".data ++ spec ++ " is missing a required file extension.".data

/-- The branch shared verbatim by the two specifier resolvers in build.ts
(lines 206-217 and 251-262) for specifiers beginning with "./" or "../":
require an extension (else one console.error diagnostic, specifier kept),
remap a mapped extension in place, pass unmapped extensions through. -/
def relativeResolve (f spec : List Char) : List Char × List Event :=
  let ext := (extname spec).drop 1
  if ext = [] then (spec, [Event.Console "error".data (missingExtMsg f spec)])
  else
    match srcFileExtensionMapping ext with
    | some rep => (replaceExtAtEnd spec ext rep, [])
    | none => (spec, [])

/-- The build-worker resolver (build.ts lines 202-223).  The dependency
map lookup follows JavaScript truthiness: a binding to the empty string
behaves like an absent binding. -/
def buildResolve (imports : List (List Char × List Char)) (f spec : List Char) :
    List Char × List Event :=
  if strStartsWith spec "http".data || strStartsWith spec "/".data then (spec, [])
  else if strStartsWith spec "./".data || strStartsWith spec "../".data then
    relativeResolve f spec
  else
    match lookupStr imports spec with
    | some v =>
      if v ≠ [] then (webModulesDir ++ v, [])
      else (webModulesDir ++ spec ++ ".js".data, [Event.MissingWebModule spec])
    | none => (webModulesDir ++ spec ++ ".js".data, [Event.MissingWebModule spec])

/-- The plugin-worker resolver (build.ts lines 247-264): identical to the
build-worker resolver except that a bare specifier is always rewritten to
the fallback, with no import-map lookup and no MISSING_WEB_MODULE event. -/
def pluginResolve (f spec : List Char) : List Char × List Event :=
  if strStartsWith spec "http".data || strStartsWith spec "/".data then (spec, [])
  else if strStartsWith spec "./".data || strStartsWith spec "../".data then
    relativeResolve f spec
  else (webModulesDir ++ spec ++ ".js".data, [])

/-- Modelled from the spec: a code string as seen by `transformEsmImports`
(src/rewrite-imports.ts is not among the provided sources): the
alternation of plain text and ESM import/export specifier string
literals found by its scan. -/
inductive Chunk
  | text (s : List Char)
  | spec (s : List Char)
  deriving DecidableEq

/-- Modelled from the spec: `transformEsmImports` "scans code for ESM
specifier string literals (import/export from) and replaces each one in
place; all other text is untouched".  The resolver argument also reports
the events the resolver emits while rewriting. -/
def transformEsmImports (resolve : List Char → List Char × List Event) :
    List Chunk → List Chunk × List Event
  | [] => ([], [])
  | Chunk.text t :: rest =>
    let r := transformEsmImports resolve rest
    (Chunk.text t :: r.1, r.2)
  | Chunk.spec s :: rest =>
    let r := transformEsmImports resolve rest
    (Chunk.spec (resolve s).1 :: r.1, (resolve s).2 ++ r.2)

/-! ## Transform dispatcher -/

/-- The per-file worker match of the dispatch loop (build.ts line 176):
a worker is applied to a file unless its id contains neither
":" ++ ext nor "," ++ ext as a substring. -/
def matchesWorker (id ext : List Char) : Bool :=
  strIncludes id (':' :: ext) || strIncludes id (',' :: ext)

/-- The declared extension list of a build:/plugin: worker id
(build.ts line 63): the text after the first ":", split on commas. -/
def extsOf (id : List Char) : List (List Char) :=
  splitOnChar ',' (((splitOnChar ':' id).drop 1).headD [])

/-- The output path for a source file (build.ts lines 194-199): the
include root replaced by the distribution root, then a mapped source
extension replaced at the end. -/
def outPathFor (includeRoot dist f : List Char) : List Char :=
  let op := replaceFirst includeRoot dist f
  let extToFind := (extname f).drop 1
  match srcFileExtensionMapping extToFind with
  | some rep => replaceExtAtEnd op extToFind rep
  | none => op

/-- What gets written: transformed code, the synthesized manifest, or the
babel configuration referencing the import-meta plugin. -/
structure Manifest where
  name : Option (List Char)
  devDependencies : Option (List (List Char × List Char))
  rest : List (List Char × List Char)
  deriving DecidableEq

inductive FileContent
  | code (chunks : List Chunk)
  | manifest (m : Manifest)
  | babelrc (pluginPath : List Char)
  deriving DecidableEq

/-- One observable action of the command, in program order.  Stream
callbacks of concurrently running lint/bundler processes are asynchronous
and outside this sequential trace. -/
inductive Action
  | console (level msg : List Char)
  | rimraf (dir : List Char)
  | mkdirp (dir : List Char)
  | emit (e : Event)
  | copyDir (src dst : List Char)
  | copyFiltered (src dst : List Char)
  | writeFile (path : List Char) (content : FileContent)
  deriving DecidableEq

inductive Outcome
  | earlyReturn
  | fatal (msg : List Char)
  | ok
  deriving DecidableEq

/-- Oracles for the external world. -/
structure World where
  /-- the dependency import map loaded from install dest/import-map.json. -/
  importMap : List (List Char × List Char)
  /-- `execa.command(cmd, input := f)`: stdout (none for empty output,
  which JavaScript treats as absent) and stderr. -/
  exec : List Char → List Char → Option (List Chunk) × List Char
  /-- the plugin module's `build(f)`: thrown error message or code. -/
  plugin : List Char → List Char → Except (List Char) (List Chunk)
  /-- `fs-extra` `copy(src, dst)`: an error message on failure. -/
  copyResult : List Char → List Char → Option (List Char)
  /-- result of the filtered copy in the bundle stage. -/
  copyFilteredResult : Option (List Char)
  /-- the enumerated source files (glob over the include root). -/
  globFiles : List (List Char)
  /-- the parsed project package.json. -/
  packageJson : Manifest
  /-- resolved path of @babel/plugin-syntax-import-meta. -/
  babelPluginPath : List Char
  /-- parcel invocation: an error message on failure. -/
  parcelResult : Option (List Char)

structure SnowpackConfig where
  scripts : List (List Char × List Char)
  bundle : Bool
  out : List Char
  dist : List Char
  /-- `config.include` in the source; `include` is a Lean keyword. -/
  includeRoot : Option (List Char)

/-- One build-worker step for one file (build.ts lines 181-227). -/
def buildFileStep (dep : List (List Char × List Char)) (w : World)
    (includeRoot dist cmd f : List Char) : List Action :=
  let r := w.exec cmd f
  let errActs :=
    if r.2 ≠ [] then [Action.emit (Event.Console "error".data r.2)] else []
  match r.1 with
  | none => errActs
  | some stdout =>
    let outPath := outPathFor includeRoot dist f
    let rw :=
      if extname outPath = ".js".data then
        transformEsmImports (buildResolve dep f) stdout
      else (stdout, [])
    errActs ++ rw.2.map Action.emit ++ [Action.writeFile outPath (FileContent.code rw.1)]

/-- One plugin-worker step for one file (build.ts lines 228-268). -/
def pluginFileStep (w : World) (includeRoot dist id cmd f : List Char) :
    List Action :=
  match w.plugin cmd f with
  | Except.error e =>
    let msg := "[".data ++ id ++ "] ".data ++ e
    [Action.emit (Event.Console "error".data msg),
     Action.emit (Event.WorkerComplete id (some msg))]
  | Except.ok result =>
    let outPath := outPathFor includeRoot dist f
    let rw :=
      if extname outPath = ".js".data then
        transformEsmImports (pluginResolve f) result
      else (result, [])
    rw.2.map Action.emit ++ [Action.writeFile outPath (FileContent.code rw.1)]

/-- The body of the dispatch loop for one worker and one matched file
(the two id tests on lines 181 and 228 of build.ts). -/
def transformFileActs (dep : List (List Char × List Char)) (w : World)
    (includeRoot dist id cmd f : List Char) : List Action :=
  (if strStartsWith id "build:".data then
    buildFileStep dep w includeRoot dist cmd f
  else []) ++
  (if strStartsWith id "plugin:".data then
    pluginFileStep w includeRoot dist id cmd f
  else [])

/-- One build:/plugin: worker's pass over the enumerated files
(build.ts lines 173-270): a RUNNING update, the matched files in order,
then an unconditional WORKER_COMPLETE with a null error. -/
def runOneTransformWorker (dep : List (List Char × List Char)) (w : World)
    (includeRoot dist : List Char) (files : List (List Char))
    (id cmd : List Char) : List Action :=
  Action.emit (Event.WorkerUpdate id "RUNNING".data) ::
  (files.flatMap fun f =>
    if matchesWorker id ((extname f).drop 1) then
      transformFileActs dep w includeRoot dist id cmd f
    else []) ++
  [Action.emit (Event.WorkerComplete id none)]

/-- The transform dispatcher (build.ts lines 169-271): the relevant
workers in declaration order, restricted to build:/plugin: ids. -/
def runDispatcher (dep : List (List Char × List Char)) (w : World)
    (includeRoot dist : List Char) (files : List (List Char))
    (workers : List (List Char × List Char)) : List Action :=
  workers.flatMap fun s =>
    if strStartsWith s.1 "build:".data || strStartsWith s.1 "plugin:".data then
      runOneTransformWorker dep w includeRoot dist files s.1 s.2
    else []

/-! ## Mount stage -/

/-- The `--to` option extracted by yargs-parser from the remaining mount
arguments (only the space-separated `--to value` form occurs). -/
def yargsTo : List (List Char) → Option (List Char)
  | [] => none
  | a :: rest => if a = "--to".data then rest.head? else yargsTo rest

def mountErrMsg (id : List Char) : List Char :=
  "script[".data ++ id ++ "] must use the mount command".data

/-- One iteration of the mount loop (build.ts lines 138-160): validate the
first token, resolve source and destination, copy; a missing directory
argument or a missing `--to` value makes `path.resolve`/`path.join` throw
a TypeError on the undefined argument. -/
def runMountOne (w : World) (cwd buildDir id cmd : List Char) :
    Except (List Action × List Char) (List Action) :=
  let arr := splitWs cmd
  if arr.headD [] ≠ "mount".data then Except.error ([], mountErrMsg id)
  else
    match arr.drop 1 with
    | [] => Except.error ([], "TypeError".data)
    | d0 :: restArgs =>
      let dirDisk := resolvePath cwd d0
      let dirUrl : Option (List Char) :=
        match restArgs with
        | [] => some ('/' :: d0)
        | _ => yargsTo (d0 :: restArgs)
      match dirUrl with
      | none => Except.error ([], "TypeError".data)
      | some u =>
        let dest := if u = "/".data then buildDir else joinPath buildDir u
        match w.copyResult dirDisk dest with
        | some err =>
          Except.error
            ([Action.emit (Event.WorkerMsg id "error".data err),
              Action.emit (Event.WorkerComplete id (some err))], err)
        | none =>
          Except.ok [Action.copyDir dirDisk dest,
                     Action.emit (Event.WorkerComplete id none)]

/-- The mount loop (build.ts lines 134-161): the workers in declaration
order; the first failure aborts the loop, carrying the actions performed
so far and the error message. -/
def runMounts (w : World) (cwd buildDir : List Char) :
    List (List Char × List Char) → Except (List Action × List Char) (List Action)
  | [] => Except.ok []
  | (id, cmd) :: rest =>
    match runMountOne w cwd buildDir id cmd with
    | Except.error e => Except.error e
    | Except.ok acts1 =>
      match runMounts w cwd buildDir rest with
      | Except.error (acts, msg) => Except.error (acts1 ++ acts, msg)
      | Except.ok acts => Except.ok (acts1 ++ acts)

/-! ## Bundle stage -/

/-- The manifest synthesis of `prepareBuildDirectoryForParcel`
(build.ts lines 293-303): drop the name field, default devDependencies to
an empty object, and assign `devDependencies["@babel/core"] =
devDependencies["@babel/core"] || "^7.9.0"` (JavaScript truthiness: an
empty-string version is replaced by the default). -/
def prepareManifest (m : Manifest) : Manifest :=
  let dd := m.devDependencies.getD []
  let cur := lookupStr dd "@babel/core".data
  let newVal :=
    match cur with
    | some v => if v ≠ [] then v else "^7.9.0".data
    | none => "^7.9.0".data
  { name := none,
    devDependencies := some (setKey dd "@babel/core".data newVal),
    rest := m.rest }

def bundleId : List Char := "bundle:*".data

/-- The bundle stage (build.ts lines 276-338). -/
def runBundle (w : World) (buildDir finalDir : List Char) :
    List Action × Outcome :=
  let upd := Action.emit (Event.WorkerUpdate bundleId "RUNNING".data)
  match w.copyFilteredResult with
  | some e =>
    ([upd, Action.copyFiltered buildDir finalDir,
      Action.emit (Event.WorkerMsg bundleId "error".data e),
      Action.emit (Event.WorkerComplete bundleId (some e))], Outcome.fatal e)
  | none =>
    let acts :=
      [upd, Action.copyFiltered buildDir finalDir,
       Action.writeFile (joinPath buildDir "package.json".data)
         (FileContent.manifest (prepareManifest w.packageJson)),
       Action.writeFile (joinPath buildDir ".babelrc".data)
         (FileContent.babelrc w.babelPluginPath)]
    match w.parcelResult with
    | some e =>
      (acts ++ [Action.emit (Event.WorkerMsg bundleId "error".data e),
                Action.emit (Event.WorkerComplete bundleId (some e))],
       Outcome.fatal e)
    | none =>
      (acts ++ Action.emit (Event.WorkerComplete bundleId none) ::
         (if finalDir ≠ buildDir then [Action.rimraf buildDir] else []),
       Outcome.ok)

/-! ## The command -/

def noBuildMsg1 : List Char := "No build scripts found, so nothing to build.".data
def noBuildMsg2 : List Char :=
  "See https://www.snowpack.dev/#build-scripts for help configuring your build.".data

def relevantOf (scripts : List (List Char × List Char)) :
    List (List Char × List Char) :=
  scripts.filter fun s =>
    strStartsWith s.1 "build:".data || strStartsWith s.1 "plugin:".data ||
    strStartsWith s.1 "lintall:".data || strStartsWith s.1 "mount:".data

/-- `buildDirectoryLoc` (build.ts line 34). -/
def buildDirOf (cwd : List Char) (cfg : SnowpackConfig) : List Char :=
  if cfg.bundle then joinPath cwd ".build".data else cfg.out

/-- The directory reset performed on lines 45-50 of build.ts. -/
def dirActsOf (cwd : List Char) (cfg : SnowpackConfig) : List Action :=
  [Action.rimraf cfg.out, Action.mkdirp cfg.out] ++
  (if cfg.out ≠ buildDirOf cwd cfg then
    [Action.rimraf (buildDirOf cwd cfg), Action.mkdirp (buildDirOf cwd cfg)]
  else [])

/-- The synchronous RUNNING updates of the lint loop (build.ts line 94). -/
def lintActsOf (cfg : SnowpackConfig) : List Action :=
  ((relevantOf cfg.scripts).filter fun s =>
    strStartsWith s.1 "lintall:".data).map fun s =>
      Action.emit (Event.WorkerUpdate s.1 "RUNNING".data)

/-- The mount-category workers of a configuration, in declaration order,
exactly as iterated by the mount loop of `command`. -/
def relevantMounts (cfg : SnowpackConfig) : List (List Char × List Char) :=
  (relevantOf cfg.scripts).filter fun s => strStartsWith s.1 "mount:".data

/-- The `command` entry point of build.ts as a pure function from the
configuration and the world to the ordered observable actions and the
outcome.  The synthetic `bundle:*` entry appended to the relevant workers
when bundling is enabled feeds only the progress renderer and emits
nothing by itself; lint workers contribute their synchronous RUNNING
updates (their stream callbacks are concurrent). -/
def command (cwd : List Char) (cfg : SnowpackConfig) (w : World) :
    List Action × Outcome :=
  if (cfg.scripts.filter fun s => strStartsWith s.1 "build".data).length = 0 then
    ([Action.console "error".data noBuildMsg1,
      Action.console "error".data noBuildMsg2], Outcome.earlyReturn)
  else
    match runMounts w cwd (buildDirOf cwd cfg) (relevantMounts cfg) with
    | Except.error (acts, msg) =>
      (dirActsOf cwd cfg ++ lintActsOf cfg ++ acts, Outcome.fatal msg)
    | Except.ok mountActs =>
      let transformActs :=
        match cfg.includeRoot with
        | none => []
        | some inc =>
          runDispatcher w.importMap w inc (joinPath (buildDirOf cwd cfg) cfg.dist)
            w.globFiles (relevantOf cfg.scripts)
      if cfg.bundle then
        let b := runBundle w (buildDirOf cwd cfg) cfg.out
        (dirActsOf cwd cfg ++ lintActsOf cfg ++ mountActs ++ transformActs ++
          b.1, b.2)
      else
        (dirActsOf cwd cfg ++ lintActsOf cfg ++ mountActs ++ transformActs,
          Outcome.ok)

/-- An action class: what the mount loop may contribute to the trace —
directory copies, per-worker messages and completions; never a file write
and never a WorkerUpdate. -/
def mountSafe (a : Action) : Prop :=
  (∃ s d, a = Action.copyDir s d) ∨
  (∃ id lv m, a = Action.emit (Event.WorkerMsg id lv m)) ∨
  (∃ id er, a = Action.emit (Event.WorkerComplete id er))

/-- A concrete world used to evaluate the model at sample inputs: the
build command echoes an import of "foo", the plugin module always throws,
copies and the bundler succeed. -/
def sampleWorld : World where
  importMap := [("foo".data, "lib/foo/index.js".data)]
  exec := fun _ _ => (some [Chunk.spec "foo".data], [])
  plugin := fun _ _ => Except.error "boom".data
  copyResult := fun _ _ => none
  copyFilteredResult := none
  globFiles := ["src/a.ts".data]
  packageJson := { name := some "app".data, devDependencies := none, rest := [] }
  babelPluginPath := "meta".data
  parcelResult := none

/-- A configuration whose only build-like script id begins with "build"
but not with "build:". -/
def cfgBuildx : SnowpackConfig :=
  { scripts := [("buildx:y".data, "whatever".data)], bundle := false,
    out := "out".data, dist := "/_dist_".data, includeRoot := none }

/-- A configuration with a build worker and a malformed mount command
(first token "cp", not "mount"). -/
def cfgBadMount : SnowpackConfig :=
  { scripts := [("build:ts".data, "tsc".data),
                ("mount:static".data, "cp public".data)],
    bundle := false, out := "out".data, dist := "/_dist_".data,
    includeRoot := none }

/-- A configuration with bundling enabled. -/
def cfgBundle : SnowpackConfig :=
  { scripts := [("build:ts".data, "tsc".data)], bundle := true,
    out := "out".data, dist := "/_dist_".data, includeRoot := none }

/-! ## Characterizations of the string primitives -/

theorem strStartsWith_iff (l p : List Char) :
    strStartsWith l p = true ↔ ∃ t, l = p ++ t := by
  induction p generalizing l with
  | nil => simp [strStartsWith]
  | cons x xs ih =>
    cases l with
    | nil => simp [strStartsWith]
    | cons c cs =>
      simp only [strStartsWith, Bool.and_eq_true, decide_eq_true_eq, ih]
      constructor
      · rintro ⟨rfl, t, rfl⟩
        exact ⟨t, rfl⟩
      · rintro ⟨t, h⟩
        simp only [List.cons_append, List.cons.injEq] at h
        exact ⟨h.1, t, h.2⟩

theorem strIncludes_iff (l sub : List Char) :
    strIncludes l sub = true ↔ ∃ a b, l = a ++ sub ++ b := by
  induction l with
  | nil =>
    simp only [strIncludes, strStartsWith_iff]
    constructor
    · rintro ⟨t, h⟩
      exact ⟨[], t, by simpa using h⟩
    · rintro ⟨a, b, h⟩
      rcases List.append_eq_nil.mp (List.append_eq_nil.mp h.symm).1 with ⟨rfl, rfl⟩
      exact ⟨b, by simpa using h⟩
  | cons c cs ih =>
    simp only [strIncludes, Bool.or_eq_true, strStartsWith_iff, ih]
    constructor
    · rintro (⟨t, h⟩ | ⟨a, b, h⟩)
      · exact ⟨[], t, by simpa using h⟩
      · exact ⟨c :: a, b, by simp [h]⟩
    · rintro ⟨a, b, h⟩
      cases a with
      | nil => exact Or.inl ⟨b, by simpa using h⟩
      | cons a0 as =>
        simp only [List.cons_append, List.cons.injEq] at h
        exact Or.inr ⟨as, b, by simp [h.2]⟩

theorem take_append_len (a b : List Char) : (a ++ b).take a.length = a := by
  induction a with
  | nil => simp
  | cons x xs ih => simp [ih]

/-! ## Structure of `splitOnChar` -/

theorem splitOnChar_ne_nil (c : Char) (l : List Char) : splitOnChar c l ≠ [] := by
  cases l with
  | nil => simp [splitOnChar]
  | cons x xs =>
    simp only [splitOnChar]
    split
    · simp
    · split
      · simp
      · simp

theorem splitOnChar_headD_pre (c : Char) (l : List Char) :
    ∃ t, l = (splitOnChar c l).headD [] ++ t := by
  induction l with
  | nil => exact ⟨[], rfl⟩
  | cons x xs ih =>
    simp only [splitOnChar]
    split
    · exact ⟨x :: xs, by simp⟩
    · rcases hs : splitOnChar c xs with _ | ⟨a, as⟩
      · exact absurd hs (splitOnChar_ne_nil c xs)
      · rcases ih with ⟨t, ht⟩
        rw [hs] at ht
        exact ⟨t, by simp [ht]⟩

theorem splitOnChar_tail_mem (c : Char) (l e : List Char)
    (h : e ∈ (splitOnChar c l).drop 1) : ∃ a b, l = a ++ (c :: e) ++ b := by
  induction l with
  | nil => simp [splitOnChar] at h
  | cons x xs ih =>
    simp only [splitOnChar] at h
    by_cases hx : x = c
    · simp only [if_pos hx, List.drop_succ_cons, List.drop_zero] at h
      rcases hs : splitOnChar c xs with _ | ⟨a, as⟩
      · exact absurd hs (splitOnChar_ne_nil c xs)
      · rw [hs] at h
        rcases List.mem_cons.mp h with rfl | htl
        · rcases splitOnChar_headD_pre c xs with ⟨t, ht⟩
          rw [hs] at ht
          simp only [List.headD_cons] at ht
          exact ⟨[], t, by simp [hx, ht]⟩
        · rcases ih (by simpa [hs] using htl) with ⟨a', b', hab⟩
          exact ⟨x :: a', b', by simp [hab]⟩
    · simp only [if_neg hx] at h
      rcases hs : splitOnChar c xs with _ | ⟨a, as⟩
      · exact absurd hs (splitOnChar_ne_nil c xs)
      · rw [hs] at h
        simp only [List.drop_succ_cons, List.drop_zero] at h
        rcases ih (by simpa [hs] using h) with ⟨a', b', hab⟩
        exact ⟨x :: a', b', by simp [hab]⟩

theorem splitOnChar_append_sep (c : Char) (a r : List Char) (ha : c ∉ a) :
    splitOnChar c (a ++ c :: r) = a :: splitOnChar c r := by
  induction a with
  | nil => simp [splitOnChar]
  | cons x xs ih =>
    have hx : x ≠ c := fun hc => ha (hc ▸ List.mem_cons_self x xs)
    have hxs : c ∉ xs := fun hm => ha (List.mem_cons_of_mem x hm)
    simp only [List.cons_append, splitOnChar, if_neg hx, List.append_eq, ih hxs]

/-! ## takeWhile / dropWhile helpers -/

theorem mem_takeWhile_sat {p : Char → Bool} :
    ∀ {l : List Char} {a : Char}, a ∈ l.takeWhile p → p a = true := by
  intro l
  induction l with
  | nil => intro a h; simp at h
  | cons x xs ih =>
    intro a h
    by_cases hx : p x = true
    · rw [List.takeWhile_cons, if_pos hx] at h
      rcases List.mem_cons.mp h with rfl | h'
      · exact hx
      · exact ih h'
    · rw [List.takeWhile_cons, if_neg hx] at h
      simp at h

theorem takeWhile_append_all {p : Char → Bool} (a b : List Char)
    (h : ∀ x ∈ a, p x = true) :
    (a ++ b).takeWhile p = a ++ b.takeWhile p := by
  induction a with
  | nil => simp
  | cons x xs ih =>
    have hx := h x (List.mem_cons_self x xs)
    simp only [List.cons_append, List.takeWhile_cons, if_pos hx]
    rw [ih fun y hy => h y (List.mem_cons_of_mem x hy)]

theorem dropWhile_head_ne {p : Char → Bool} :
    ∀ {l : List Char} {x : Char} {r : List Char},
      l.dropWhile p = x :: r → p x = false := by
  intro l
  induction l with
  | nil => intro x r h; simp [List.dropWhile] at h
  | cons y ys ih =>
    intro x r h
    by_cases hy : p y = true
    · rw [List.dropWhile_cons, if_pos hy] at h
      exact ih h
    · rw [List.dropWhile_cons, if_neg hy] at h
      cases h
      exact Bool.eq_false_iff.mpr hy

/-! ## Decomposition of `basenamePart` and `extname` -/

theorem basename_decomp (p : List Char) :
    ∃ d, p = d ++ basenamePart p ∧ (∀ x ∈ basenamePart p, x ≠ '/') ∧
      (d = [] ∨ ∃ d', d = d' ++ ['/']) := by
  have hsplit : p.reverse.takeWhile (fun ch => ch ≠ '/') ++
      p.reverse.dropWhile (fun ch => ch ≠ '/') = p.reverse :=
    List.takeWhile_append_dropWhile _ _
  refine ⟨(p.reverse.dropWhile (fun ch => ch ≠ '/')).reverse, ?_, ?_, ?_⟩
  · have h2 : (p.reverse.dropWhile (fun ch => ch ≠ '/')).reverse ++
        basenamePart p = p := by
      show (p.reverse.dropWhile (fun ch => ch ≠ '/')).reverse ++
        (p.reverse.takeWhile (fun ch => ch ≠ '/')).reverse = p
      rw [← List.reverse_append, hsplit, List.reverse_reverse]
    exact h2.symm
  · intro x hx
    have : x ∈ p.reverse.takeWhile (fun ch => ch ≠ '/') :=
      List.mem_reverse.mp hx
    have := mem_takeWhile_sat this
    simpa using this
  · rcases hdw : p.reverse.dropWhile (fun ch => ch ≠ '/') with _ | ⟨y, r⟩
    · left; simp
    · right
      have hy : (fun ch => decide (ch ≠ '/')) y = false := dropWhile_head_ne hdw
      have : y = '/' := by simpa using hy
      exact ⟨r.reverse, by simp [this]⟩

theorem basename_append (d w : List Char) (hw : ∀ x ∈ w, x ≠ '/')
    (hd : d = [] ∨ ∃ d', d = d' ++ ['/']) : basenamePart (d ++ w) = w := by
  unfold basenamePart
  rw [List.reverse_append]
  rw [takeWhile_append_all _ _ (fun x hx => by
    simpa using hw x (List.mem_reverse.mp hx))]
  rcases hd with rfl | ⟨d', rfl⟩
  · simp
  · rw [List.reverse_append]
    simp [List.takeWhile_cons]

theorem extname_decomp (s e : List Char) (he : (extname s).drop 1 = e)
    (hne : e ≠ []) :
    ∃ d pre, s = d ++ pre ++ '.' :: e ∧ pre ≠ [] ∧
      (∀ x ∈ pre, x ≠ '/') ∧ (∀ x ∈ e, x ≠ '/') ∧ (∀ x ∈ e, x ≠ '.') ∧
      (d = [] ∨ ∃ d', d = d' ++ ['/']) := by
  rcases basename_decomp s with ⟨d, hs, hbmem, hd⟩
  simp only [extname] at he
  set b := basenamePart s with hb
  by_cases hdd : b = ['.', '.']
  · rw [if_pos hdd] at he
    simp only [List.drop_nil] at he
    exact absurd he.symm hne
  rw [if_neg hdd] at he
  set aft := b.reverse.takeWhile (fun ch => ch ≠ '.') with haft
  by_cases hlen : b.length ≤ aft.length + 1
  · rw [if_pos hlen] at he
    simp only [List.drop_nil] at he
    exact absurd he.symm hne
  rw [if_neg hlen] at he
  simp only [List.drop_succ_cons, List.drop_zero] at he
  have hsplit : aft ++ b.reverse.dropWhile (fun ch => ch ≠ '.') = b.reverse := by
    rw [haft]; exact List.takeWhile_append_dropWhile _ _
  rcases hdw : b.reverse.dropWhile (fun ch => ch ≠ '.') with _ | ⟨y, r⟩
  · exfalso
    rw [hdw] at hsplit
    simp only [List.append_nil] at hsplit
    have hlb : aft.length = b.length := by
      rw [hsplit]; exact List.length_reverse b
    omega
  have hy : y = '.' := by
    have := dropWhile_head_ne hdw
    simpa using this
  rw [hdw] at hsplit
  have hrb : b = r.reverse ++ '.' :: e := by
    have h1 : b = (aft ++ y :: r).reverse := by
      rw [hsplit, List.reverse_reverse]
    rw [h1, List.reverse_append, List.reverse_cons, hy, he]
    simp
  have hr : r ≠ [] := by
    intro hr0
    rw [hr0] at hrb
    have hlb : b.length = 1 + e.length := by
      rw [hrb]; simp; omega
    have hae : aft.length = e.length := by
      rw [← he]; exact (List.length_reverse aft).symm
    omega
  refine ⟨d, r.reverse, ?_, by simpa using hr, ?_, ?_, ?_, hd⟩
  · rw [hs, hrb]; simp
  · intro x hx
    exact hbmem x (by rw [hrb]; exact List.mem_append_left _ hx)
  · intro x hx
    exact hbmem x (by
      rw [hrb]
      exact List.mem_append_right _ (List.mem_cons_of_mem _ hx))
  · intro x hx
    have hxa : x ∈ aft := by
      rw [← he] at hx
      exact List.mem_reverse.mp hx
    have := mem_takeWhile_sat hxa
    simpa using this

theorem extname_recompose (d pre e : List Char) (hpre : pre ≠ [])
    (hpslash : ∀ x ∈ pre, x ≠ '/') (heslash : ∀ x ∈ e, x ≠ '/')
    (hedot : ∀ x ∈ e, x ≠ '.') (hee : e ≠ [])
    (hd : d = [] ∨ ∃ d', d = d' ++ ['/']) :
    extname (d ++ pre ++ '.' :: e) = '.' :: e := by
  have hb : basenamePart (d ++ pre ++ '.' :: e) = pre ++ '.' :: e := by
    rw [List.append_assoc]
    refine basename_append d (pre ++ '.' :: e) ?_ hd
    intro x hx
    rcases List.mem_append.mp hx with h | h
    · exact hpslash x h
    · rcases List.mem_cons.mp h with rfl | h'
      · simp
      · exact heslash x h'
  unfold extname
  rw [hb]
  have hblen : (pre ++ '.' :: e).length = pre.length + 1 + e.length := by simp; omega
  have hne2 : ¬(pre ++ '.' :: e = ['.', '.']) := by
    intro hcontra
    have := congrArg List.length hcontra
    rw [hblen] at this
    simp at this
    rcases List.length_pos.mpr hpre with hp
    rcases List.length_pos.mpr hee with hq
    omega
  rw [if_neg hne2]
  have hrev : (pre ++ '.' :: e).reverse = e.reverse ++ '.' :: pre.reverse := by
    simp
  rw [hrev]
  have htw : (e.reverse ++ '.' :: pre.reverse).takeWhile (fun ch => ch ≠ '.') =
      e.reverse := by
    rw [takeWhile_append_all _ _ (fun x hx => by
      simpa using hedot x (List.mem_reverse.mp hx))]
    simp [List.takeWhile_cons]
  rw [htw]
  have hcond : ¬((pre ++ '.' :: e).length ≤ e.reverse.length + 1) := by
    rw [hblen, List.length_reverse]
    rcases List.length_pos.mpr hpre with hp
    omega
  rw [if_neg hcond]
  simp

/-! ## Facts about `replaceExtAtEnd` and the extension mapping -/

theorem core_isPrefixOf_self_append (p t : List Char) :
    p.isPrefixOf (p ++ t) = true := by
  induction p with
  | nil => simp [List.isPrefixOf]
  | cons x xs ih => simp [List.isPrefixOf, ih]

theorem isSuffixOf_append_self (a ext : List Char) :
    ext.isSuffixOf (a ++ ext) = true := by
  unfold List.isSuffixOf
  rw [List.reverse_append]
  exact core_isPrefixOf_self_append _ _

theorem replaceExtAtEnd_append (a ext rep : List Char) :
    replaceExtAtEnd (a ++ ext) ext rep = a ++ rep := by
  unfold replaceExtAtEnd
  rw [if_pos (isSuffixOf_append_self a ext)]
  have hlen : (a ++ ext).length - ext.length = a.length := by simp
  rw [hlen, take_append_len]

theorem mapping_val (e r : List Char) (h : srcFileExtensionMapping e = some r) :
    r = "js".data := by
  unfold srcFileExtensionMapping at h
  split at h
  · exact (Option.some.injEq _ _ ▸ h.symm).symm ▸ rfl
  · exact absurd h (by simp)

theorem mapping_of_js : srcFileExtensionMapping "js".data = none := by decide

/-! ## Stability of rewritten relative specifiers -/

theorem rel_head (s : List Char)
    (hrel : strStartsWith s "./".data = true ∨ strStartsWith s "../".data = true) :
    ∃ t, s = '.' :: t := by
  rcases hrel with h | h
  · rcases (strStartsWith_iff _ _).mp h with ⟨t, rfl⟩
    exact ⟨'/' :: t, rfl⟩
  · rcases (strStartsWith_iff _ _).mp h with ⟨t, rfl⟩
    exact ⟨'.' :: '/' :: t, rfl⟩

theorem dot_not_http (t : List Char) :
    (strStartsWith ('.' :: t) "http".data || strStartsWith ('.' :: t) "/".data)
      = false := by
  have h1 : "http".data = 'h' :: 't' :: 't' :: 'p' :: [] := rfl
  have h2 : "/".data = '/' :: [] := rfl
  rw [h1, h2]
  simp [strStartsWith]

theorem dotSlash_starts (x : List Char) :
    strStartsWith ('.' :: '/' :: x) "./".data = true := by
  exact (strStartsWith_iff _ _).mpr ⟨x, rfl⟩

theorem dotDotSlash_starts (x : List Char) :
    strStartsWith ('.' :: '.' :: '/' :: x) "../".data = true := by
  exact (strStartsWith_iff _ _).mpr ⟨x, rfl⟩

/-- Case analysis of the shared relative-specifier branch. -/
theorem relativeResolve_cases (f s : List Char) :
    ((extname s).drop 1 = [] ∧ relativeResolve f s =
        (s, [Event.Console "error".data (missingExtMsg f s)])) ∨
    ((extname s).drop 1 ≠ [] ∧
        srcFileExtensionMapping ((extname s).drop 1) = none ∧
        relativeResolve f s = (s, [])) ∨
    (∃ e, (extname s).drop 1 = e ∧ e ≠ [] ∧
        srcFileExtensionMapping e = some "js".data ∧
        relativeResolve f s = (replaceExtAtEnd s e "js".data, [])) := by
  by_cases hext : (extname s).drop 1 = []
  · left
    exact ⟨hext, by unfold relativeResolve; rw [if_pos hext]⟩
  · rcases Option.eq_none_or_eq_some (srcFileExtensionMapping ((extname s).drop 1))
      with hmap | ⟨r, hmap⟩
    · right; left
      exact ⟨hext, hmap, by unfold relativeResolve; rw [if_neg hext, hmap]⟩
    · right; right
      have hr := mapping_val _ _ hmap
      subst hr
      exact ⟨(extname s).drop 1, rfl, hext, hmap, by
        unfold relativeResolve; rw [if_neg hext, hmap]⟩

/-- A relative prefix of `d ++ w` lies entirely inside `d` when `w`
contains no slash, and hence transfers to `d ++ w'` for any `w'`. -/
theorem rel_prefix_transfer (d w w' : List Char)
    (hnos : ∀ x ∈ w, x ≠ '/')
    (h2 : strStartsWith (d ++ w) "./".data = true ∨
      strStartsWith (d ++ w) "../".data = true) :
    strStartsWith (d ++ w') "./".data = true ∨
      strStartsWith (d ++ w') "../".data = true := by
  rcases h2 with h | h
  · rcases (strStartsWith_iff _ _).mp h with ⟨t, hst⟩
    have hs2 : d ++ w = '.' :: '/' :: t := hst
    rcases d with _ | ⟨x, _ | ⟨x', d''⟩⟩
    · exfalso
      have hmem : '/' ∈ w := by
        have hw : w = '.' :: '/' :: t := hs2
        rw [hw]; simp
      exact hnos '/' hmem rfl
    · exfalso
      have hx : x :: w = '.' :: '/' :: t := hs2
      injection hx with hA hB
      have hmem : '/' ∈ w := by rw [hB]; simp
      exact hnos '/' hmem rfl
    · have hx : x :: x' :: (d'' ++ w) = '.' :: '/' :: t := hs2
      injection hx with hA hrest
      injection hrest with hB hrest2
      subst hA; subst hB
      exact Or.inl (dotSlash_starts (d'' ++ w'))
  · rcases (strStartsWith_iff _ _).mp h with ⟨t, hst⟩
    have hs2 : d ++ w = '.' :: '.' :: '/' :: t := hst
    rcases d with _ | ⟨x, _ | ⟨x', _ | ⟨x'', d''⟩⟩⟩
    · exfalso
      have hmem : '/' ∈ w := by
        have hw : w = '.' :: '.' :: '/' :: t := hs2
        rw [hw]; simp
      exact hnos '/' hmem rfl
    · exfalso
      have hx : x :: w = '.' :: '.' :: '/' :: t := hs2
      injection hx with hA hB
      have hmem : '/' ∈ w := by rw [hB]; simp
      exact hnos '/' hmem rfl
    · exfalso
      have hx : x :: x' :: w = '.' :: '.' :: '/' :: t := hs2
      injection hx with hA hrest
      injection hrest with hB hC
      have hmem : '/' ∈ w := by rw [hC]; simp
      exact hnos '/' hmem rfl
    · have hx : x :: x' :: x'' :: (d'' ++ w) = '.' :: '.' :: '/' :: t := hs2
      injection hx with hA hrest
      injection hrest with hB hrest2
      injection hrest2 with hC hrest3
      subst hA; subst hB; subst hC
      exact Or.inr (dotDotSlash_starts (d'' ++ w'))

/-- After remapping the extension of a relative specifier, the result is
still a relative specifier whose extension is exactly ".js". -/
theorem rewritten_rel_stable (s e : List Char)
    (hrel : strStartsWith s "./".data = true ∨ strStartsWith s "../".data = true)
    (he : (extname s).drop 1 = e) (hne : e ≠ []) :
    (strStartsWith (replaceExtAtEnd s e "js".data) "./".data = true ∨
      strStartsWith (replaceExtAtEnd s e "js".data) "../".data = true) ∧
    extname (replaceExtAtEnd s e "js".data) = '.' :: "js".data := by
  rcases extname_decomp s e he hne with ⟨d, pre, hsdec, hpre, hps, hes, hed, hd⟩
  have hsplit2 : s = (d ++ pre ++ ['.']) ++ e := by
    rw [hsdec]; simp
  have hy : replaceExtAtEnd s e "js".data = d ++ pre ++ '.' :: "js".data := by
    rw [hsplit2, replaceExtAtEnd_append]
    simp
  have hnos : ∀ x ∈ pre ++ '.' :: e, x ≠ '/' := by
    intro x hx
    rcases List.mem_append.mp hx with h | h
    · exact hps x h
    · rcases List.mem_cons.mp h with rfl | h'
      · simp
      · exact hes x h'
  have hyext : extname (replaceExtAtEnd s e "js".data) = '.' :: "js".data := by
    rw [hy]
    exact extname_recompose d pre "js".data hpre hps
      (by decide) (by decide) (by decide) hd
  refine ⟨?_, hyext⟩
  have hsd : s = d ++ (pre ++ '.' :: e) := by rw [hsdec]; simp
  have hrel' : strStartsWith (d ++ (pre ++ '.' :: e)) "./".data = true ∨
      strStartsWith (d ++ (pre ++ '.' :: e)) "../".data = true := by
    rw [← hsd]; exact hrel
  have htr := rel_prefix_transfer d (pre ++ '.' :: e)
    (pre ++ '.' :: "js".data) hnos hrel'
  have hy2 : replaceExtAtEnd s e "js".data = d ++ (pre ++ '.' :: "js".data) := by
    rw [hy]; simp
  rw [hy2]
  exact htr

/-! ## Branch evaluation of the resolvers -/

theorem slash_starts (x : List Char) :
    strStartsWith ('/' :: x) "/".data = true :=
  (strStartsWith_iff _ _).mpr ⟨x, rfl⟩

theorem webModules_starts_slash (x : List Char) :
    (strStartsWith (webModulesDir ++ x) "http".data ||
      strStartsWith (webModulesDir ++ x) "/".data) = true := by
  have h2 : strStartsWith (webModulesDir ++ x) "/".data = true :=
    (strStartsWith_iff _ _).mpr ⟨"web_modules/".data ++ x, rfl⟩
  rw [h2, Bool.or_true]

theorem buildResolve_br1 (imports : List (List Char × List Char)) (f s : List Char)
    (h : (strStartsWith s "http".data || strStartsWith s "/".data) = true) :
    buildResolve imports f s = (s, []) := by
  unfold buildResolve
  rw [if_pos h]

theorem buildResolve_br2 (imports : List (List Char × List Char)) (f s : List Char)
    (h1 : (strStartsWith s "http".data || strStartsWith s "/".data) = false)
    (h2 : (strStartsWith s "./".data || strStartsWith s "../".data) = true) :
    buildResolve imports f s = relativeResolve f s := by
  unfold buildResolve
  rw [if_neg (by simp [h1]), if_pos h2]

theorem buildResolve_bare_some (imports : List (List Char × List Char))
    (f s v : List Char)
    (h1 : (strStartsWith s "http".data || strStartsWith s "/".data) = false)
    (h2 : (strStartsWith s "./".data || strStartsWith s "../".data) = false)
    (hl : lookupStr imports s = some v) (hv : v ≠ []) :
    buildResolve imports f s = (webModulesDir ++ v, []) := by
  unfold buildResolve
  rw [if_neg (by simp [h1]), if_neg (by simp [h2]), hl]
  simp [hv]

theorem buildResolve_bare_fallback (imports : List (List Char × List Char))
    (f s : List Char)
    (h1 : (strStartsWith s "http".data || strStartsWith s "/".data) = false)
    (h2 : (strStartsWith s "./".data || strStartsWith s "../".data) = false)
    (hl : lookupStr imports s = none ∨ lookupStr imports s = some []) :
    buildResolve imports f s =
      (webModulesDir ++ s ++ ".js".data, [Event.MissingWebModule s]) := by
  unfold buildResolve
  rw [if_neg (by simp [h1]), if_neg (by simp [h2])]
  rcases hl with hl | hl
  · rw [hl]
  · rw [hl]
    simp

theorem pluginResolve_br1 (f s : List Char)
    (h : (strStartsWith s "http".data || strStartsWith s "/".data) = true) :
    pluginResolve f s = (s, []) := by
  unfold pluginResolve
  rw [if_pos h]

theorem pluginResolve_br2 (f s : List Char)
    (h1 : (strStartsWith s "http".data || strStartsWith s "/".data) = false)
    (h2 : (strStartsWith s "./".data || strStartsWith s "../".data) = true) :
    pluginResolve f s = relativeResolve f s := by
  unfold pluginResolve
  rw [if_neg (by simp [h1]), if_pos h2]

theorem pluginResolve_bare (f s : List Char)
    (h1 : (strStartsWith s "http".data || strStartsWith s "/".data) = false)
    (h2 : (strStartsWith s "./".data || strStartsWith s "../".data) = false) :
    pluginResolve f s = (webModulesDir ++ s ++ ".js".data, []) := by
  unfold pluginResolve
  rw [if_neg (by simp [h1]), if_neg (by simp [h2])]

theorem relativeResolve_unmapped (f y e2 : List Char)
    (he2 : (extname y).drop 1 = e2) (hne : e2 ≠ [])
    (hmap : srcFileExtensionMapping e2 = none) :
    relativeResolve f y = (y, []) := by
  simp only [relativeResolve]
  rw [he2, if_neg hne, hmap]

theorem relativeResolve_noext (f y : List Char)
    (he2 : (extname y).drop 1 = []) :
    relativeResolve f y = (y, [Event.Console "error".data (missingExtMsg f y)]) := by
  simp only [relativeResolve]
  rw [he2, if_pos rfl]

/-! ## Idempotence of the resolvers on values -/

theorem resolve_rel_val_idem (imports : List (List Char × List Char))
    (f f' s : List Char)
    (h1 : (strStartsWith s "http".data || strStartsWith s "/".data) = false)
    (h2 : (strStartsWith s "./".data || strStartsWith s "../".data) = true) :
    (buildResolve imports f' (relativeResolve f s).1).1 = (relativeResolve f s).1 ∧
    (pluginResolve f' (relativeResolve f s).1).1 = (relativeResolve f s).1 := by
  rcases relativeResolve_cases f s with ⟨hext, hrr⟩ | ⟨hext, hmap, hrr⟩ |
    ⟨e, he, hne, hmap, hrr⟩
  · rw [hrr]
    constructor
    · rw [buildResolve_br2 imports f' s h1 h2, relativeResolve_noext f' s hext]
    · rw [pluginResolve_br2 f' s h1 h2, relativeResolve_noext f' s hext]
  · rw [hrr]
    constructor
    · rw [buildResolve_br2 imports f' s h1 h2,
        relativeResolve_unmapped f' s _ rfl hext hmap]
    · rw [pluginResolve_br2 f' s h1 h2,
        relativeResolve_unmapped f' s _ rfl hext hmap]
  · rw [hrr]
    have hrel : strStartsWith s "./".data = true ∨
        strStartsWith s "../".data = true := by
      simpa using h2
    obtain ⟨hyrel, hyext⟩ := rewritten_rel_stable s e hrel he hne
    obtain ⟨t, hyt⟩ := rel_head _ hyrel
    have hy1 : (strStartsWith (replaceExtAtEnd s e "js".data) "http".data ||
        strStartsWith (replaceExtAtEnd s e "js".data) "/".data) = false := by
      rw [hyt]; exact dot_not_http t
    have hy2 : (strStartsWith (replaceExtAtEnd s e "js".data) "./".data ||
        strStartsWith (replaceExtAtEnd s e "js".data) "../".data) = true := by
      simpa using hyrel
    have hexty : (extname (replaceExtAtEnd s e "js".data)).drop 1 = "js".data := by
      rw [hyext]; simp
    have hra := relativeResolve_unmapped f' (replaceExtAtEnd s e "js".data)
      "js".data hexty (by decide) mapping_of_js
    constructor
    · rw [buildResolve_br2 imports f' _ hy1 hy2, hra]
    · rw [pluginResolve_br2 f' _ hy1 hy2, hra]

theorem buildResolve_val_idem (imports : List (List Char × List Char))
    (f f' s : List Char) :
    (buildResolve imports f' (buildResolve imports f s).1).1 =
      (buildResolve imports f s).1 := by
  by_cases h1 : (strStartsWith s "http".data || strStartsWith s "/".data) = true
  · rw [buildResolve_br1 imports f s h1, buildResolve_br1 imports f' s h1]
  · have h1f : (strStartsWith s "http".data || strStartsWith s "/".data) = false :=
      Bool.eq_false_iff.mpr h1
    by_cases h2 : (strStartsWith s "./".data || strStartsWith s "../".data) = true
    · rw [buildResolve_br2 imports f s h1f h2]
      exact (resolve_rel_val_idem imports f f' s h1f h2).1
    · have h2f : (strStartsWith s "./".data || strStartsWith s "../".data) = false :=
        Bool.eq_false_iff.mpr h2
      have hassoc : webModulesDir ++ s ++ ".js".data =
          webModulesDir ++ (s ++ ".js".data) := by simp
      rcases Option.eq_none_or_eq_some (lookupStr imports s) with hl | ⟨v, hl⟩
      · rw [buildResolve_bare_fallback imports f s h1f h2f (Or.inl hl)]
        rw [show ((webModulesDir ++ s ++ ".js".data,
            [Event.MissingWebModule s]).1 : List Char) =
          webModulesDir ++ (s ++ ".js".data) from hassoc]
        rw [buildResolve_br1 imports f' _ (webModules_starts_slash _)]
      · by_cases hv : v = []
        · subst hv
          rw [buildResolve_bare_fallback imports f s h1f h2f (Or.inr hl)]
          rw [show ((webModulesDir ++ s ++ ".js".data,
              [Event.MissingWebModule s]).1 : List Char) =
            webModulesDir ++ (s ++ ".js".data) from hassoc]
          rw [buildResolve_br1 imports f' _ (webModules_starts_slash _)]
        · rw [buildResolve_bare_some imports f s v h1f h2f hl hv]
          rw [buildResolve_br1 imports f' _ (webModules_starts_slash _)]

theorem pluginResolve_val_idem (f f' s : List Char) :
    (pluginResolve f' (pluginResolve f s).1).1 = (pluginResolve f s).1 := by
  by_cases h1 : (strStartsWith s "http".data || strStartsWith s "/".data) = true
  · rw [pluginResolve_br1 f s h1, pluginResolve_br1 f' s h1]
  · have h1f : (strStartsWith s "http".data || strStartsWith s "/".data) = false :=
      Bool.eq_false_iff.mpr h1
    by_cases h2 : (strStartsWith s "./".data || strStartsWith s "../".data) = true
    · rw [pluginResolve_br2 f s h1f h2]
      exact (resolve_rel_val_idem [] f f' s h1f h2).2
    · have h2f : (strStartsWith s "./".data || strStartsWith s "../".data) = false :=
        Bool.eq_false_iff.mpr h2
      rw [pluginResolve_bare f s h1f h2f]
      have hassoc : webModulesDir ++ s ++ ".js".data =
          webModulesDir ++ (s ++ ".js".data) := by simp
      rw [show ((webModulesDir ++ s ++ ".js".data, ([] : List Event)).1 :
          List Char) = webModulesDir ++ (s ++ ".js".data) from hassoc]
      rw [pluginResolve_br1 f' _ (webModules_starts_slash _)]

/-! ## Idempotence of the rewriter -/

theorem transformEsmImports_val_idem (r : List Char → List Char × List Event)
    (hr : ∀ s, (r (r s).1).1 = (r s).1) (code : List Chunk) :
    (transformEsmImports r (transformEsmImports r code).1).1 =
      (transformEsmImports r code).1 := by
  induction code with
  | nil => simp [transformEsmImports]
  | cons c rest ih =>
    cases c with
    | text t => simp [transformEsmImports, ih]
    | spec s => simp [transformEsmImports, ih, hr s]

/-! ## Claim C2 -/

/-- C2: the import rewrite is idempotent — for every code string and every
fixed resolver/dependency-map (the build-worker resolver over an arbitrary
map, and the plugin-worker resolver), applying the rewrite a second time
to its own output yields that output unchanged. -/
theorem c2_rewrite_idempotent (imports : List (List Char × List Char))
    (f : List Char) (code : List Chunk) :
    (transformEsmImports (buildResolve imports f)
        (transformEsmImports (buildResolve imports f) code).1).1 =
      (transformEsmImports (buildResolve imports f) code).1 ∧
    (transformEsmImports (pluginResolve f)
        (transformEsmImports (pluginResolve f) code).1).1 =
      (transformEsmImports (pluginResolve f) code).1 :=
  ⟨transformEsmImports_val_idem _ (buildResolve_val_idem imports f f) code,
   transformEsmImports_val_idem _ (pluginResolve_val_idem f f) code⟩

/-! ## Claim C4 -/

/-- C4: a relative import specifier (beginning with "./" or "../") without
a file extension is left unchanged and exactly one missing-extension
diagnostic is emitted for the occurrence; a relative specifier with an
extension has only its extension remapped (unmapped extensions pass
through unchanged), the rest of the path untouched, and both the
build-worker and the plugin-worker resolver behave this way. -/
theorem c4_relative_specifiers (imports : List (List Char × List Char))
    (f s : List Char)
    (hrel : strStartsWith s "./".data = true ∨
      strStartsWith s "../".data = true) :
    (buildResolve imports f s = relativeResolve f s ∧
      pluginResolve f s = relativeResolve f s) ∧
    ((extname s).drop 1 = [] →
      relativeResolve f s =
        (s, [Event.Console "error".data (missingExtMsg f s)])) ∧
    (∀ e, (extname s).drop 1 = e → e ≠ [] →
      (relativeResolve f s).2 = [] ∧
      s = s.take (s.length - e.length) ++ e ∧
      (relativeResolve f s).1 =
        s.take (s.length - e.length) ++ ((srcFileExtensionMapping e).getD e)) := by
  obtain ⟨t, hst⟩ := rel_head s hrel
  have h1f : (strStartsWith s "http".data || strStartsWith s "/".data) = false := by
    rw [hst]; exact dot_not_http t
  have h2t : (strStartsWith s "./".data || strStartsWith s "../".data) = true := by
    simpa using hrel
  refine ⟨⟨buildResolve_br2 imports f s h1f h2t, pluginResolve_br2 f s h1f h2t⟩,
    fun hext => relativeResolve_noext f s hext, ?_⟩
  intro e he hne
  rcases extname_decomp s e he hne with ⟨d, pre, hsdec, hpre, hps, hes, hed, hd⟩
  have hsplit2 : s = (d ++ pre ++ ['.']) ++ e := by
    rw [hsdec]; simp
  have htake : s.take (s.length - e.length) = d ++ pre ++ ['.'] := by
    conv_lhs => rw [hsplit2]
    have hlen2 : ((d ++ pre ++ ['.']) ++ e).length - e.length =
        (d ++ pre ++ ['.']).length := by simp; omega
    rw [hlen2, take_append_len]
  rcases Option.eq_none_or_eq_some (srcFileExtensionMapping e) with hmap | ⟨r, hmap⟩
  · have hrr := relativeResolve_unmapped f s e he hne hmap
    refine ⟨by rw [hrr], ?_, ?_⟩
    · rw [htake, ← hsplit2]
    · rw [hrr, hmap, Option.getD_none, htake, ← hsplit2]
  · have hr := mapping_val _ _ hmap
    subst hr
    have hrr : relativeResolve f s = (replaceExtAtEnd s e "js".data, []) := by
      simp only [relativeResolve]
      rw [he, if_neg hne, hmap]
    refine ⟨by rw [hrr], by rw [htake, ← hsplit2], ?_⟩
    rw [hrr, hmap, Option.getD_some]
    show replaceExtAtEnd s e "js".data = s.take (s.length - e.length) ++ "js".data
    rw [htake]
    conv_lhs => rw [hsplit2]
    rw [replaceExtAtEnd_append]

/-- Witness for C4: a concrete extensionless relative import produces the
diagnostic and is kept; a concrete ".ts" relative import is remapped to
".js" with no event. -/
theorem c4_relative_specifiers_witness :
    buildResolve [] "src/a.ts".data "./b".data =
      ("./b".data,
        [Event.Console "error".data (missingExtMsg "src/a.ts".data "./b".data)]) ∧
    (buildResolve [] "src/a.ts".data "./b.ts".data).1 = "./b.js".data := by
  have h := c4_relative_specifiers [] "src/a.ts".data "./b".data
    (Or.inl (by decide))
  have h2 := c4_relative_specifiers [] "src/a.ts".data "./b.ts".data
    (Or.inl (by decide))
  constructor
  · rw [h.1.1]
    exact h.2.1 (by decide)
  · rw [h2.1.1]
    have h3 := h2.2.2 "ts".data (by decide) (by decide)
    rw [h3.2.2]
    decide

/-! ## Claim C1 -/

/-- C1 (amended): for files rewritten by a build worker, a bare specifier
(one beginning with none of "http", "/", "./", "../") that is bound in the
dependency import map to a nonempty path is replaced by "/web_modules/" ++
map[s] with no event; one that is absent (or bound to the empty string) is
replaced by "/web_modules/" ++ s ++ ".js" with exactly one MissingWebModule
event.  For files rewritten by a plugin worker the map is never consulted:
every bare specifier becomes "/web_modules/" ++ s ++ ".js" with no event. -/
theorem c1_bare_specifier_resolution (imports : List (List Char × List Char))
    (f s : List Char)
    (h1 : strStartsWith s "http".data = false)
    (h2 : strStartsWith s "/".data = false)
    (h3 : strStartsWith s "./".data = false)
    (h4 : strStartsWith s "../".data = false) :
    (∀ v, lookupStr imports s = some v → v ≠ [] →
      buildResolve imports f s = (webModulesDir ++ v, [])) ∧
    (lookupStr imports s = none →
      buildResolve imports f s =
        (webModulesDir ++ s ++ ".js".data, [Event.MissingWebModule s])) ∧
    (lookupStr imports s = some [] →
      buildResolve imports f s =
        (webModulesDir ++ s ++ ".js".data, [Event.MissingWebModule s])) ∧
    pluginResolve f s = (webModulesDir ++ s ++ ".js".data, []) := by
  have h1f : (strStartsWith s "http".data || strStartsWith s "/".data) = false := by
    rw [h1, h2]; rfl
  have h2f : (strStartsWith s "./".data || strStartsWith s "../".data) = false := by
    rw [h3, h4]; rfl
  exact ⟨fun v hl hv => buildResolve_bare_some imports f s v h1f h2f hl hv,
    fun hl => buildResolve_bare_fallback imports f s h1f h2f (Or.inl hl),
    fun hl => buildResolve_bare_fallback imports f s h1f h2f (Or.inr hl),
    pluginResolve_bare f s h1f h2f⟩

/-- Witness for C1: a mapped bare specifier resolves through the map for a
build worker; an unmapped one falls back with one MissingWebModule event. -/
theorem c1_bare_specifier_resolution_witness :
    buildResolve [("foo".data, "lib/foo/index.js".data)] "src/a.ts".data
      "foo".data = (webModulesDir ++ "lib/foo/index.js".data, []) ∧
    buildResolve [] "src/a.ts".data "bar".data =
      (webModulesDir ++ "bar".data ++ ".js".data,
        [Event.MissingWebModule "bar".data]) := by
  have h := c1_bare_specifier_resolution [("foo".data, "lib/foo/index.js".data)]
    "src/a.ts".data "foo".data (by decide) (by decide) (by decide) (by decide)
  have h2 := c1_bare_specifier_resolution [] "src/a.ts".data "bar".data
    (by decide) (by decide) (by decide) (by decide)
  exact ⟨h.1 "lib/foo/index.js".data (by decide) (by decide), h2.2.1 (by decide)⟩

/-- Counterexample to C1 as stated: the specifier "foo" is present in the
dependency import map, yet in the resolver used for plugin-worker output it
is rewritten to the fallback "/web_modules/foo.js" — not to "/web_modules/"
++ map["foo"] — and no MissingWebModule event is emitted. -/
theorem c1_bare_specifier_claim_cex :
    lookupStr [("foo".data, "lib/foo/index.js".data)] "foo".data =
      some "lib/foo/index.js".data ∧
    pluginResolve "src/a.ts".data "foo".data =
      ("/web_modules/foo.js".data, []) ∧
    ("/web_modules/foo.js".data : List Char) ≠
      webModulesDir ++ "lib/foo/index.js".data ∧
    (transformEsmImports (pluginResolve "src/a.ts".data)
        [Chunk.spec "foo".data]).1 =
      [Chunk.spec "/web_modules/foo.js".data] :=
  ⟨by decide, by decide, by decide, by decide⟩

/-! ## Claim C8 -/

/-- C8: the plugin-worker resolver never consults the dependency import
map (it takes no map input at all) and never emits a MissingWebModule
event; every bare specifier not beginning with "http", "/", "./", "../" is
rewritten to "/web_modules/" ++ s ++ ".js" even when it is present in the
map. -/
theorem c8_plugin_resolver_no_map (f s : List Char) :
    ((strStartsWith s "http".data = false ∧ strStartsWith s "/".data = false ∧
      strStartsWith s "./".data = false ∧ strStartsWith s "../".data = false) →
      pluginResolve f s = (webModulesDir ++ s ++ ".js".data, [])) ∧
    (∀ sp, Event.MissingWebModule sp ∉ (pluginResolve f s).2) := by
  constructor
  · rintro ⟨h1, h2, h3, h4⟩
    exact pluginResolve_bare f s (by rw [h1, h2]; rfl) (by rw [h3, h4]; rfl)
  · intro sp
    by_cases h1 : (strStartsWith s "http".data || strStartsWith s "/".data) = true
    · rw [pluginResolve_br1 f s h1]
      simp
    · have h1f := Bool.eq_false_iff.mpr h1
      by_cases h2 : (strStartsWith s "./".data || strStartsWith s "../".data) = true
      · rw [pluginResolve_br2 f s h1f h2]
        rcases relativeResolve_cases f s with ⟨_, hrr⟩ | ⟨_, _, hrr⟩ |
          ⟨e, _, _, _, hrr⟩ <;> rw [hrr] <;> simp
      · rw [pluginResolve_bare f s h1f (Bool.eq_false_iff.mpr h2)]
        simp

/-- Witness for C8: the concrete mapped specifier "foo" still resolves to
the fallback under the plugin resolver. -/
theorem c8_plugin_resolver_no_map_witness :
    pluginResolve "src/a.ts".data "foo".data =
      (webModulesDir ++ "foo".data ++ ".js".data, []) ∧
    Event.MissingWebModule "foo".data ∉
      (pluginResolve "src/a.ts".data "foo".data).2 := by
  have h := c8_plugin_resolver_no_map "src/a.ts".data "foo".data
  exact ⟨h.1 ⟨by decide, by decide, by decide, by decide⟩, h.2 "foo".data⟩

/-! ## Claim C3 -/

theorem exts_mem_matches (id e a t : List Char)
    (hidsplit : id = a ++ ':' :: t) (ha : ':' ∉ a)
    (he : e ∈ extsOf id) : matchesWorker id e = true := by
  have hsc : splitOnChar ':' id = a :: splitOnChar ':' t := by
    rw [hidsplit]; exact splitOnChar_append_sep ':' a t ha
  have hexts : extsOf id = splitOnChar ','
      ((splitOnChar ':' t).headD []) := by
    unfold extsOf
    rw [hsc]
    simp
  rw [hexts] at he
  obtain ⟨t2, ht2⟩ := splitOnChar_headD_pre ':' t
  rcases hsc2 : splitOnChar ',' ((splitOnChar ':' t).headD []) with _ | ⟨h0, tl⟩
  · exact absurd hsc2 (splitOnChar_ne_nil _ _)
  rw [hsc2] at he
  rcases List.mem_cons.mp he with rfl | htl
  · -- e is the first comma-segment of the first ":"-segment of t
    obtain ⟨u, hu⟩ := splitOnChar_headD_pre ',' ((splitOnChar ':' t).headD [])
    rw [hsc2] at hu
    simp only [List.headD_cons] at hu
    have hinc : strIncludes id (':' :: e) = true := by
      apply (strIncludes_iff _ _).mpr
      exact ⟨a, u ++ t2, by rw [hidsplit, ht2, hu]; simp⟩
    unfold matchesWorker
    rw [hinc]
    rfl
  · have htl2 : e ∈ (splitOnChar ',' ((splitOnChar ':' t).headD [])).drop 1 := by
      rw [hsc2]; simpa using htl
    obtain ⟨u, v, huv⟩ := splitOnChar_tail_mem ',' _ e htl2
    have hinc : strIncludes id (',' :: e) = true := by
      apply (strIncludes_iff _ _).mpr
      exact ⟨a ++ ':' :: u, v ++ t2, by rw [hidsplit, ht2, huv]; simp⟩
    unfold matchesWorker
    rw [hinc]
    simp

/-- C3 (amended): the dispatcher applies a build:/plugin: worker to a file
exactly when the worker id contains ":" ++ ext or "," ++ ext as a
substring.  Every extension declared in the worker's comma-separated list
matches (so declared extensions are always applied, in declaration order),
but the match is a substring test, not whole-element membership. -/
theorem c3_dispatch_matching (dep : List (List Char × List Char)) (w : World)
    (inc dist id cmd f : List Char)
    (hid : strStartsWith id "build:".data = true ∨
      strStartsWith id "plugin:".data = true) :
    (∀ e, e ∈ extsOf id → matchesWorker id e = true) ∧
    (matchesWorker id ((extname f).drop 1) = false →
      runOneTransformWorker dep w inc dist [f] id cmd =
        [Action.emit (Event.WorkerUpdate id "RUNNING".data),
         Action.emit (Event.WorkerComplete id none)]) ∧
    (matchesWorker id ((extname f).drop 1) = true →
      runOneTransformWorker dep w inc dist [f] id cmd =
        Action.emit (Event.WorkerUpdate id "RUNNING".data) ::
        (transformFileActs dep w inc dist id cmd f ++
          [Action.emit (Event.WorkerComplete id none)])) := by
  refine ⟨?_, ?_, ?_⟩
  · intro e he
    rcases hid with h | h
    · obtain ⟨t, ht⟩ := (strStartsWith_iff _ _).mp h
      exact exts_mem_matches id e "build".data t ht (by decide) he
    · obtain ⟨t, ht⟩ := (strStartsWith_iff _ _).mp h
      exact exts_mem_matches id e "plugin".data t ht (by decide) he
  · intro hm
    rw [List.drop_one] at hm
    simp [runOneTransformWorker, hm]
  · intro hm
    rw [List.drop_one] at hm
    simp [runOneTransformWorker, hm]

/-- Witness for C3: a declared extension is matched; a file whose
extension does not substring-match the worker id is never processed. -/
theorem c3_dispatch_matching_witness :
    matchesWorker "build:js,jsx".data "jsx".data = true ∧
    runOneTransformWorker sampleWorld.importMap sampleWorld "src".data
        "dist".data ["src/a.md".data] "build:ts".data "tsc".data =
      [Action.emit (Event.WorkerUpdate "build:ts".data "RUNNING".data),
       Action.emit (Event.WorkerComplete "build:ts".data none)] := by
  have h1 := c3_dispatch_matching sampleWorld.importMap sampleWorld "src".data
    "dist".data "build:js,jsx".data "cmd".data "f".data (Or.inl (by decide))
  have h2 := c3_dispatch_matching sampleWorld.importMap sampleWorld "src".data
    "dist".data "build:ts".data "tsc".data "src/a.md".data (Or.inl (by decide))
  exact ⟨h1.1 "jsx".data (by decide), h2.2.1 (by decide)⟩

/-- Counterexample to C3 as stated: a ".ts" file is processed by a worker
declared as "build:tsx", although "ts" is not an element of that worker's
comma-separated extension list — the substring test ":ts" matches inside
":tsx". -/
theorem c3_dispatch_claim_cex :
    "ts".data ∉ extsOf "build:tsx".data ∧
    runOneTransformWorker sampleWorld.importMap sampleWorld "src".data
        "dist".data ["src/a.ts".data] "build:tsx".data "tsc".data =
      [Action.emit (Event.WorkerUpdate "build:tsx".data "RUNNING".data),
       Action.writeFile "dist/a.js".data
         (FileContent.code [Chunk.spec "/web_modules/lib/foo/index.js".data]),
       Action.emit (Event.WorkerComplete "build:tsx".data none)] :=
  ⟨by decide, by decide⟩

/-! ## Claim C10 -/

/-- C10: after a build:/plugin: worker's file loop the dispatcher
unconditionally emits WorkerComplete with a null error — even when a file
already produced a WorkerComplete carrying an error, as the concrete run
with a throwing plugin shows: the final completion event for the worker
always reports success. -/
theorem c10_final_complete_null :
    (∀ (dep : List (List Char × List Char)) (w : World)
      (inc dist : List Char) (files : List (List Char)) (id cmd : List Char),
      ∃ mid, runOneTransformWorker dep w inc dist files id cmd =
        Action.emit (Event.WorkerUpdate id "RUNNING".data) ::
        (mid ++ [Action.emit (Event.WorkerComplete id none)])) ∧
    runOneTransformWorker sampleWorld.importMap sampleWorld "src".data
        "dist".data ["src/a.ts".data] "plugin:ts".data "./plug".data =
      [Action.emit (Event.WorkerUpdate "plugin:ts".data "RUNNING".data),
       Action.emit (Event.Console "error".data "[plugin:ts] boom".data),
       Action.emit (Event.WorkerComplete "plugin:ts".data
         (some "[plugin:ts] boom".data)),
       Action.emit (Event.WorkerComplete "plugin:ts".data none)] := by
  constructor
  · intro dep w inc dist files id cmd
    exact ⟨_, rfl⟩
  · decide

/-! ## Mount-loop lemmas -/

theorem runMountOne_ok_shape (w : World) (cwd b id cmd : List Char)
    (acts : List Action) (h : runMountOne w cwd b id cmd = Except.ok acts) :
    ∀ a ∈ acts, mountSafe a := by
  simp only [runMountOne] at h
  split at h
  · simp at h
  · split at h
    · simp at h
    · split at h
      · simp at h
      · split at h
        · simp at h
        · obtain rfl : _ = acts := by simpa using h
          intro a ha
          rcases List.mem_cons.mp ha with rfl | ha2
          · exact Or.inl ⟨_, _, rfl⟩
          · rcases List.mem_cons.mp ha2 with rfl | ha3
            · exact Or.inr (Or.inr ⟨_, _, rfl⟩)
            · simp at ha3

theorem runMountOne_error_shape (w : World) (cwd b id cmd : List Char)
    (acts : List Action) (m : List Char)
    (h : runMountOne w cwd b id cmd = Except.error (acts, m)) :
    ∀ a ∈ acts, mountSafe a := by
  simp only [runMountOne] at h
  split at h
  · obtain ⟨rfl, -⟩ : ([] : List Action) = acts ∧ _ = m := by simpa using h
    intro a ha
    simp at ha
  · split at h
    · obtain ⟨rfl, -⟩ : ([] : List Action) = acts ∧ _ = m := by simpa using h
      intro a ha
      simp at ha
    · split at h
      · obtain ⟨rfl, -⟩ : ([] : List Action) = acts ∧ _ = m := by simpa using h
        intro a ha
        simp at ha
      · split at h
        · obtain ⟨rfl, -⟩ : _ ∧ _ = m := by simpa using h
          intro a ha
          rcases List.mem_cons.mp ha with rfl | ha2
          · exact Or.inr (Or.inl ⟨_, _, _, rfl⟩)
          · rcases List.mem_cons.mp ha2 with rfl | ha3
            · exact Or.inr (Or.inr ⟨_, _, rfl⟩)
            · simp at ha3
        · simp at h

theorem runMounts_all_shape (w : World) (cwd b : List Char)
    (mounts : List (List Char × List Char)) :
    (∀ acts, runMounts w cwd b mounts = Except.ok acts →
      ∀ a ∈ acts, mountSafe a) ∧
    (∀ acts m, runMounts w cwd b mounts = Except.error (acts, m) →
      ∀ a ∈ acts, mountSafe a) := by
  induction mounts with
  | nil =>
    constructor
    · intro acts h a ha
      simp only [runMounts] at h
      obtain rfl : ([] : List Action) = acts := by simpa using h
      simp at ha
    · intro acts m h
      simp only [runMounts] at h
      simp at h
  | cons hd rest ih =>
    obtain ⟨id, cmd⟩ := hd
    constructor
    · intro acts h a ha
      simp only [runMounts] at h
      rcases h1 : runMountOne w cwd b id cmd with e1 | acts1
      · rw [h1] at h
        simp at h
      · rw [h1] at h
        rcases h2 : runMounts w cwd b rest with e2 | acts2
        · obtain ⟨acts2, m2⟩ := e2
          rw [h2] at h
          simp at h
        · rw [h2] at h
          obtain rfl : acts1 ++ acts2 = acts := by simpa using h
          rcases List.mem_append.mp ha with h3 | h3
          · exact runMountOne_ok_shape w cwd b id cmd acts1 h1 a h3
          · exact ih.1 acts2 h2 a h3
    · intro acts m h
      simp only [runMounts] at h
      rcases h1 : runMountOne w cwd b id cmd with e1 | acts1
      · obtain ⟨acts1e, m1⟩ := e1
        rw [h1] at h
        obtain ⟨rfl, rfl⟩ : acts1e = acts ∧ m1 = m := by simpa using h
        exact fun a ha => runMountOne_error_shape w cwd b id cmd _ _ h1 a ha
      · rw [h1] at h
        rcases h2 : runMounts w cwd b rest with e2 | acts2
        · obtain ⟨acts2, m2⟩ := e2
          rw [h2] at h
          obtain ⟨h3, rfl⟩ : acts1 ++ acts2 = acts ∧ m2 = m := by simpa using h
          subst h3
          intro a ha
          rcases List.mem_append.mp ha with h4 | h4
          · exact runMountOne_ok_shape w cwd b id cmd acts1 h1 a h4
          · exact ih.2 acts2 _ h2 a h4
        · rw [h2] at h
          simp at h

theorem runMountOne_malformed (w : World) (cwd b id cmd : List Char)
    (h : (splitWs cmd).headD [] ≠ "mount".data) :
    runMountOne w cwd b id cmd = Except.error ([], mountErrMsg id) := by
  simp only [runMountOne]
  rw [if_pos h]

theorem runMounts_head_malformed (w : World) (cwd b id cmd : List Char)
    (rest : List (List Char × List Char))
    (h : (splitWs cmd).headD [] ≠ "mount".data) :
    runMounts w cwd b ((id, cmd) :: rest) =
      Except.error ([], mountErrMsg id) := by
  simp only [runMounts]
  rw [runMountOne_malformed w cwd b id cmd h]

theorem runMounts_exists_error (w : World) (cwd b : List Char)
    (mounts : List (List Char × List Char))
    (h : ∃ p ∈ mounts, (splitWs p.2).headD [] ≠ "mount".data) :
    ∃ acts m, runMounts w cwd b mounts = Except.error (acts, m) := by
  induction mounts with
  | nil =>
    obtain ⟨p, hp, -⟩ := h
    simp at hp
  | cons hd rest ih =>
    obtain ⟨id, cmd⟩ := hd
    obtain ⟨p, hp, hbad⟩ := h
    rcases List.mem_cons.mp hp with rfl | hp2
    · exact ⟨[], mountErrMsg id,
        runMounts_head_malformed w cwd b id cmd rest hbad⟩
    · rcases h1 : runMountOne w cwd b id cmd with e1 | acts1
      · obtain ⟨acts1, m1⟩ := e1
        exact ⟨acts1, m1, by simp only [runMounts]; rw [h1]⟩
      · obtain ⟨acts2, m2, h2⟩ := ih ⟨p, hp2, hbad⟩
        exact ⟨acts1 ++ acts2, m2, by simp only [runMounts]; rw [h1, h2]⟩

/-! ## Command-level lemmas -/

theorem command_mount_error (cwd : List Char) (cfg : SnowpackConfig) (w : World)
    (hb : ¬((cfg.scripts.filter fun s =>
      strStartsWith s.1 "build".data).length = 0))
    (acts : List Action) (msg : List Char)
    (hrm : runMounts w cwd (buildDirOf cwd cfg) (relevantMounts cfg) =
      Except.error (acts, msg)) :
    command cwd cfg w =
      (dirActsOf cwd cfg ++ lintActsOf cfg ++ acts, Outcome.fatal msg) := by
  unfold command
  rw [if_neg hb, hrm]

theorem command_trace_shape (cwd : List Char) (cfg : SnowpackConfig) (w : World)
    (hb : ¬((cfg.scripts.filter fun s =>
      strStartsWith s.1 "build".data).length = 0)) :
    ∃ rest, (command cwd cfg w).1 = dirActsOf cwd cfg ++ rest := by
  unfold command
  rw [if_neg hb]
  rcases hrm : runMounts w cwd (buildDirOf cwd cfg) (relevantMounts cfg)
    with e | mountActs
  · obtain ⟨acts, msg⟩ := e
    exact ⟨lintActsOf cfg ++ acts, by simp⟩
  · by_cases hbd : cfg.bundle = true
    · simp only [hbd, if_true, List.append_assoc]
      exact ⟨_, rfl⟩
    · simp only [Bool.not_eq_true] at hbd
      simp only [hbd, Bool.false_eq_true, if_false, List.append_assoc]
      exact ⟨_, rfl⟩

/-! ## Claim C5 -/

/-- C5: a mount WorkerSpec whose command's first whitespace-separated
token is not the literal "mount" makes the run fail fatally: the outcome
is an error for the whole run (not isolated to that worker), the trace
contains no file write, and every WorkerUpdate in it belongs to a lint
worker — the Transform Dispatcher and the Bundle Stage never ran.  When
the offending worker is the first mount worker, the error carries exactly
the configuration message. -/
theorem c5_malformed_mount_fatal (cwd : List Char) (cfg : SnowpackConfig)
    (w : World)
    (hb : (cfg.scripts.filter fun s =>
      strStartsWith s.1 "build".data).length ≠ 0) :
    ((∃ p ∈ relevantMounts cfg, (splitWs p.2).headD [] ≠ "mount".data) →
      (∃ m, (command cwd cfg w).2 = Outcome.fatal m) ∧
      (∀ p c, Action.writeFile p c ∉ (command cwd cfg w).1) ∧
      (∀ id st, Action.emit (Event.WorkerUpdate id st) ∈ (command cwd cfg w).1 →
        strStartsWith id "lintall:".data = true)) ∧
    (∀ id cmd rest, relevantMounts cfg = (id, cmd) :: rest →
      (splitWs cmd).headD [] ≠ "mount".data →
      (command cwd cfg w).2 = Outcome.fatal (mountErrMsg id)) := by
  constructor
  · intro hex
    obtain ⟨acts, msg, hrm⟩ :=
      runMounts_exists_error w cwd (buildDirOf cwd cfg) (relevantMounts cfg) hex
    have hcmd := command_mount_error cwd cfg w hb acts msg hrm
    have hsafe := (runMounts_all_shape w cwd (buildDirOf cwd cfg)
      (relevantMounts cfg)).2 acts msg hrm
    refine ⟨⟨msg, by rw [hcmd]⟩, ?_, ?_⟩
    · intro p c hmem
      rw [hcmd] at hmem
      rcases List.mem_append.mp hmem with h1 | h1
      · rcases List.mem_append.mp h1 with h2 | h2
        · unfold dirActsOf at h2
          split at h2 <;> simp at h2
        · simp [lintActsOf] at h2
      · rcases hsafe _ h1 with ⟨s2, d2, hh⟩ | ⟨i2, l2, m2, hh⟩ | ⟨i2, e2, hh⟩ <;>
          simp at hh
    · intro id st hmem
      rw [hcmd] at hmem
      rcases List.mem_append.mp hmem with h1 | h1
      · rcases List.mem_append.mp h1 with h2 | h2
        · unfold dirActsOf at h2
          split at h2 <;> simp at h2
        · simp only [lintActsOf, List.mem_map] at h2
          obtain ⟨s, hs, heq⟩ := h2
          have hs2 := List.mem_filter.mp hs
          have hid : s.1 = id := by
            have := (Action.emit.injEq _ _).mp heq
            exact ((Event.WorkerUpdate.injEq _ _ _ _).mp this).1
          rw [← hid]
          exact hs2.2
      · exfalso
        rcases hsafe _ h1 with ⟨s2, d2, hh⟩ | ⟨i2, l2, m2, hh⟩ | ⟨i2, e2, hh⟩ <;>
          simp at hh
  · intro id cmd rest hmts hbad
    have hrm : runMounts w cwd (buildDirOf cwd cfg) (relevantMounts cfg) =
        Except.error ([], mountErrMsg id) := by
      rw [hmts]
      exact runMounts_head_malformed w cwd (buildDirOf cwd cfg) id cmd rest hbad
    rw [command_mount_error cwd cfg w hb [] (mountErrMsg id) hrm]

/-- Witness for C5: the concrete configuration whose mount command is
"cp public" aborts with the configuration message and writes nothing. -/
theorem c5_malformed_mount_fatal_witness :
    (command "proj".data cfgBadMount sampleWorld).2 =
      Outcome.fatal (mountErrMsg "mount:static".data) ∧
    (∀ p c, Action.writeFile p c ∉
      (command "proj".data cfgBadMount sampleWorld).1) := by
  have h := c5_malformed_mount_fatal "proj".data cfgBadMount sampleWorld
    (by decide)
  refine ⟨h.2 "mount:static".data "cp public".data [] (by decide) (by decide),
    ?_⟩
  exact (h.1 ⟨("mount:static".data, "cp public".data), by decide,
    by decide⟩).2.1

/-! ## Claim C6 -/

/-- C6 (amended): if zero scripts whose id begins with the string "build"
(colon not required — the check is a bare "build" prefix test) are
configured, the command reports the condition on the console and returns
early without error, before any directory is deleted or created and before
any stage runs: the whole trace is the two console messages.  (The spec's
error taxonomy elsewhere classifies this same condition as a fatal
ConfigurationError; the code returns without error.) -/
theorem c6_no_build_scripts_early_return (cwd : List Char)
    (cfg : SnowpackConfig) (w : World)
    (hb : (cfg.scripts.filter fun s =>
      strStartsWith s.1 "build".data).length = 0) :
    command cwd cfg w =
      ([Action.console "error".data noBuildMsg1,
        Action.console "error".data noBuildMsg2], Outcome.earlyReturn) := by
  unfold command
  rw [if_pos hb]

/-- Witness for C6: a mount-only configuration returns early with exactly
the two console messages. -/
theorem c6_no_build_scripts_early_return_witness :
    command "proj".data
      { scripts := [("mount:web".data, "mount web".data)], bundle := false,
        out := "out".data, dist := "/_dist_".data, includeRoot := none }
      sampleWorld =
      ([Action.console "error".data noBuildMsg1,
        Action.console "error".data noBuildMsg2], Outcome.earlyReturn) :=
  c6_no_build_scripts_early_return _ _ _ (by decide)

/-- Counterexample to C6 as stated: a configuration whose only script id
is "buildx:y" configures zero build-category (build:-prefixed) workers,
yet the command does not return early — the startsWith("build") check
without the colon counts it — and it deletes and recreates the output
directory. -/
theorem c6_no_build_scripts_cex :
    (cfgBuildx.scripts.filter fun s =>
      strStartsWith s.1 "build:".data) = [] ∧
    (command "proj".data cfgBuildx sampleWorld).2 ≠ Outcome.earlyReturn ∧
    Action.rimraf cfgBuildx.out ∈
      (command "proj".data cfgBuildx sampleWorld).1 :=
  ⟨by decide, by decide, by decide⟩

/-! ## Claim C9 -/

/-- C9: immediately after the no-build-scripts check — before any mount
command is validated and before any worker emits anything — the command
deletes and recreates the final output directory, and then the
intermediate build directory when it differs (as it does under bundling);
consequently a run that later aborts fatally on a malformed mount command
has already destroyed the previous output tree, as the concrete aborting
run shows. -/
theorem c9_dirs_reset_before_mounts (cwd : List Char) (cfg : SnowpackConfig)
    (w : World)
    (hb : (cfg.scripts.filter fun s =>
      strStartsWith s.1 "build".data).length ≠ 0) :
    ((command cwd cfg w).1.take 2 =
      [Action.rimraf cfg.out, Action.mkdirp cfg.out]) ∧
    (cfg.out ≠ buildDirOf cwd cfg →
      (command cwd cfg w).1.take 4 =
        [Action.rimraf cfg.out, Action.mkdirp cfg.out,
         Action.rimraf (buildDirOf cwd cfg),
         Action.mkdirp (buildDirOf cwd cfg)]) ∧
    ((command "proj".data cfgBadMount sampleWorld).2 =
        Outcome.fatal (mountErrMsg "mount:static".data) ∧
      Action.rimraf cfgBadMount.out ∈
        (command "proj".data cfgBadMount sampleWorld).1) := by
  obtain ⟨rest, hsh⟩ := command_trace_shape cwd cfg w hb
  refine ⟨?_, ?_, by decide, by decide⟩
  · rw [hsh]
    unfold dirActsOf
    by_cases hne : cfg.out ≠ buildDirOf cwd cfg
    · rw [if_pos hne]
      simp
    · rw [if_neg hne]
      simp
  · intro hne
    rw [hsh]
    unfold dirActsOf
    rw [if_pos hne]
    simp

/-- Witness for C9: under the bundling configuration both directories are
reset, in order, at the head of the trace. -/
theorem c9_dirs_reset_before_mounts_witness :
    (command "proj".data cfgBundle sampleWorld).1.take 2 =
      [Action.rimraf "out".data, Action.mkdirp "out".data] ∧
    (command "proj".data cfgBundle sampleWorld).1.take 4 =
      [Action.rimraf "out".data, Action.mkdirp "out".data,
       Action.rimraf (joinPath "proj".data ".build".data),
       Action.mkdirp (joinPath "proj".data ".build".data)] := by
  have h := c9_dirs_reset_before_mounts "proj".data cfgBundle sampleWorld
    (by decide)
  exact ⟨h.1, h.2.1 (by decide)⟩

/-! ## Claim C7 -/

theorem lookup_setKey_self (l : List (List Char × List Char))
    (k v : List Char) : lookupStr (setKey l k v) k = some v := by
  induction l with
  | nil => simp [setKey, lookupStr]
  | cons hd rest ih =>
    obtain ⟨a, b⟩ := hd
    by_cases hak : a = k
    · subst hak
      simp [setKey, lookupStr]
    · simp [setKey, lookupStr, hak, ih]

theorem lookup_setKey_other (l : List (List Char × List Char))
    (k v k' : List Char) (hk : k' ≠ k) :
    lookupStr (setKey l k v) k' = lookupStr l k' := by
  induction l with
  | nil =>
    simp [setKey, lookupStr, Ne.symm hk]
  | cons hd rest ih =>
    obtain ⟨a, b⟩ := hd
    by_cases hak : a = k
    · subst hak
      simp [setKey, lookupStr, Ne.symm hk]
    · simp [setKey, lookupStr, hak, ih]

/-- C7 (amended): when bundling is enabled, the manifest written into the
intermediate build directory is the project manifest with the name field
removed and every other field unchanged; the devDependencies entry for
@babel/core is added with the default constraint when it is absent — or
present with an empty-string value, which the truthiness test overwrites —
and is kept unchanged when present with a nonempty value. -/
theorem c7_manifest_preparation (m : Manifest) (w : World) (bd fd : List Char) :
    (prepareManifest m).name = none ∧
    (prepareManifest m).rest = m.rest ∧
    (∀ k, k ≠ "@babel/core".data →
      lookupStr ((prepareManifest m).devDependencies.getD []) k =
        lookupStr (m.devDependencies.getD []) k) ∧
    (lookupStr (m.devDependencies.getD []) "@babel/core".data = none →
      lookupStr ((prepareManifest m).devDependencies.getD [])
        "@babel/core".data = some "^7.9.0".data) ∧
    (lookupStr (m.devDependencies.getD []) "@babel/core".data = some [] →
      lookupStr ((prepareManifest m).devDependencies.getD [])
        "@babel/core".data = some "^7.9.0".data) ∧
    (∀ v, v ≠ [] →
      lookupStr (m.devDependencies.getD []) "@babel/core".data = some v →
      lookupStr ((prepareManifest m).devDependencies.getD [])
        "@babel/core".data = some v) ∧
    (w.copyFilteredResult = none →
      Action.writeFile (joinPath bd "package.json".data)
        (FileContent.manifest (prepareManifest w.packageJson)) ∈
        (runBundle w bd fd).1) := by
  have hdd : (prepareManifest m).devDependencies.getD [] =
      setKey (m.devDependencies.getD []) "@babel/core".data
        (match lookupStr (m.devDependencies.getD []) "@babel/core".data with
         | some v => if v ≠ [] then v else "^7.9.0".data
         | none => "^7.9.0".data) := rfl
  refine ⟨rfl, rfl, ?_, ?_, ?_, ?_, ?_⟩
  · intro k hk
    rw [hdd]
    exact lookup_setKey_other _ _ _ _ hk
  · intro h
    rw [hdd, h]
    exact lookup_setKey_self _ _ _
  · intro h
    rw [hdd, h]
    simp only [ne_eq, not_true_eq_false, if_false]
    exact lookup_setKey_self _ _ _
  · intro v hv h
    rw [hdd, h]
    simp only [ne_eq, hv, not_false_eq_true, if_true]
    exact lookup_setKey_self _ _ _
  · intro h
    rcases hp : w.parcelResult with _ | e <;> simp [runBundle, h, hp]

/-- Witness for C7: on the sample manifest (no devDependencies) the entry
is added with the default constraint, the name is removed, and the bundle
stage writes exactly this manifest into the build directory. -/
theorem c7_manifest_preparation_witness :
    (prepareManifest sampleWorld.packageJson).name = none ∧
    lookupStr ((prepareManifest sampleWorld.packageJson).devDependencies.getD [])
      "@babel/core".data = some "^7.9.0".data ∧
    Action.writeFile (joinPath "pb".data "package.json".data)
      (FileContent.manifest (prepareManifest sampleWorld.packageJson)) ∈
      (runBundle sampleWorld "pb".data "out".data).1 := by
  have h := c7_manifest_preparation sampleWorld.packageJson sampleWorld
    "pb".data "out".data
  exact ⟨h.1, h.2.2.2.1 (by decide), h.2.2.2.2.2.2 (by decide)⟩

/-- Counterexample to C7 as stated: a manifest whose devDependencies bind
@babel/core to the empty string has the entry present, yet the preparation
overwrites it with the default constraint — "never overwritten when
already present" fails on the truthiness test. -/
theorem c7_manifest_claim_cex :
    lookupStr ((Manifest.mk (some "app".data)
        (some [("@babel/core".data, ([] : List Char))]) []).devDependencies.getD [])
      "@babel/core".data = some [] ∧
    lookupStr ((prepareManifest (Manifest.mk (some "app".data)
        (some [("@babel/core".data, ([] : List Char))]) [])).devDependencies.getD [])
      "@babel/core".data = some "^7.9.0".data ∧
    some ("^7.9.0".data) ≠ some ([] : List Char) :=
  ⟨by decide, by decide, by decide⟩

end Snowpack
